import Mathlib

/-!
# github-commit-checker: the commit-recency decision and the repository prompt

A shallow embedding of `github-api/githubapi.go` and of `getSelectedRepo` in
`main.go`.

* The Go standard library is not part of the repository.  The pieces of
  package `time`, of `float64` arithmetic, of `strconv` and of `net/http` that
  the code calls are modelled in the namespaces `time`, `strconv` and by the
  type `Reply`, following the documented behaviour of the library.
* The package-level variable `repos` is passed explicitly: every function that
  reads or writes it takes the current list and returns the new one.
* The network and the clock are inputs, collected in `World`.
* A Go run-time panic (nil pointer dereference, index out of range) is an
  explicit outcome.
-/

/-! ## Model of Go's package `time` -/

namespace time

/-- A value of Go's `time.Time`: an instant together with the zone it is shown
in.  `sec` counts seconds since the Unix epoch, `nsec` the nanoseconds inside
the second, and `offset` is the number of seconds east of UTC that the
location of the value has at this instant.  The fields are unbounded integers,
while Go keeps the seconds since year 1 in an `int64` that wraps around; the
model and Go agree on the timestamps that satisfy `inRange` below. -/
structure Time where
  sec : Int
  nsec : Int
  offset : Int
deriving DecidableEq, Repr

/-- A calendar date, the three results of `Time.Date()`. -/
structure Civil where
  year : Int
  month : Int
  day : Int
deriving DecidableEq, Repr

/-- The proleptic Gregorian date of the day with index `z`, day 0 being
1970-01-01.  Days are counted from 0000-03-01 and cut into cycles of 400
years, 100 years, 4 years and 1 year, then into months starting in March. -/
def civilFromDays (z : Int) : Civil :=
  let z0 := z + 719468
  let era := z0 / 146097
  let doe := z0 % 146097
  let c := min (doe / 36524) 3
  let r1 := doe - 36524 * c
  let q := r1 / 1461
  let r2 := r1 % 1461
  let a := min (r2 / 365) 3
  let doy := r2 - 365 * a
  let mp := (5 * doy + 2) / 153
  let d := doy - (153 * mp + 2) / 5 + 1
  let m := if mp < 10 then mp + 3 else mp - 9
  ⟨400 * era + 100 * c + 4 * q + a + (if m ≤ 2 then 1 else 0), m, d⟩

/-- The index of the day with the proleptic Gregorian date `y`-`m`-`d`, for a
month between 1 and 12; the day of the month enters linearly, so a day past
the end of the month runs over into the next one, as in Go. -/
def daysFromCivil (y m d : Int) : Int :=
  let y0 := if m ≤ 2 then y - 1 else y
  let era := y0 / 400
  let yoe := y0 % 400
  let mp := if m > 2 then m - 3 else m + 9
  let doy := (153 * mp + 2) / 5 + d - 1
  let doe := yoe * 365 + yoe / 4 - yoe / 100 + doy
  era * 146097 + doe - 719468

/-- The index of the calendar day that the wall clock of `t` shows in the zone
of `t`. -/
def Time.wallDay (t : Time) : Int := (t.sec + t.offset) / 86400

/-- Go's `t.Date()`: year, month and day in which `t` occurs, in the location
of `t`. -/
def Time.Date (t : Time) : Civil := civilFromDays t.wallDay

/-- Go's `t.UTC()`: the same instant, shown in UTC. -/
def Time.UTC (t : Time) : Time := { t with offset := 0 }

/-- The offset of the location `time.UTC`. -/
def UTC : Int := 0

/-- Go's `norm(hi, lo, base)`: carries the excess of `lo` into `hi`. -/
def norm (hi lo base : Int) : Int × Int := (hi + lo / base, lo % base)

/-- Go's `time.Date(year, month, day, hour, min, sec, nsec, loc)` for a
location with the fixed offset `loc`.  Month, time of day and nanoseconds are
normalised by carrying, the day of the month is added as it is. -/
def Date (year month day hour min sec nsec : Int) (loc : Int) : Time :=
  let ym := norm year (month - 1) 12
  let sn := norm sec nsec 1000000000
  let ms := norm min sn.1 60
  let hm := norm hour ms.1 60
  let dh := norm day hm.1 24
  let days := daysFromCivil ym.1 (ym.2 + 1) dh.1
  ⟨days * 86400 + dh.2 * 3600 + hm.2 * 60 + ms.2 - loc, sn.2, loc⟩

/-- The smallest `time.Duration`, `-1 << 63`; a `Duration` is a count of
nanoseconds held in an `int64`. -/
def minDuration : Int := -9223372036854775808

/-- The largest `Duration`, `1<<63 - 1`. -/
def maxDuration : Int := 9223372036854775807

/-- The constant `time.Hour` in nanoseconds. -/
def Hour : Int := 3600000000000

/-- Go's `t.Sub(u)`: the duration `t - u`, and the largest or smallest
`Duration` when the difference does not fit in an `int64`.  This is what Go
computes for two instants that its second counter can hold (`representable`);
the wrap-around of that counter is not modelled. -/
def Time.Sub (t u : Time) : Int :=
  let d := (t.sec - u.sec) * 1000000000 + (t.nsec - u.nsec)
  if d < minDuration then minDuration
  else if maxDuration < d then maxDuration
  else d

/-- The Unix second `sec` is one that Go's `int64` count of seconds since
year 1 can hold: `sec + 62135596800` lies between `-2^63` and `2^63 - 1`. -/
def representable (sec : Int) : Prop :=
  -9223372098990372608 ≤ sec ∧ sec ≤ 9223371974719179007

/-- The instant of `t` and the time its wall clock shows both lie within
`9 * 10^18` seconds of the Unix epoch, about 285 billion years to either side.
That is inside the range of Go's second counter with room for the day to be
cut off, so nothing wraps around in `t.Date()`, in `time.Date` applied to its
result, or in `Sub`.  Every timestamp that the clock or an RFC 3339 string
(years 0000 to 9999) can give is in this range, the zero time included. -/
def inRange (t : Time) : Prop :=
  -9000000000000000000 ≤ t.sec ∧ t.sec ≤ 9000000000000000000 ∧
  -9000000000000000000 ≤ t.sec + t.offset ∧ t.sec + t.offset ≤ 9000000000000000000

/-- Rounding of a rational to the nearest integer, ties going to the even
one. -/
def roundHalfEven (x : ℚ) : Int :=
  let f := ⌊x⌋
  let r := x - f
  if r < 1 / 2 then f
  else if 1 / 2 < r then f + 1
  else if f % 2 = 0 then f else f + 1

/-- The `float64` nearest to the real number `x` (IEEE 754 binary64, round to
nearest, ties to even): `x` is rounded to 53 significant bits.  The numbers
met here lie between `2^-42` and `2^63`, well inside the normal range, so
subnormal numbers and overflow are left out. -/
def float64 (x : ℚ) : ℚ :=
  if x = 0 then 0
  else
    let e := Int.log 2 |x| - 52
    (roundHalfEven (x / (2 : ℚ) ^ e) : ℚ) * (2 : ℚ) ^ e

/-- Go's `d.Hours()`:
`float64(d / Hour) + float64(d % Hour) / (60 * 60 * 1e9)` in `float64`
arithmetic; `/` and `%` on integers truncate toward zero. -/
def Hours (d : Int) : ℚ :=
  let hour := Int.tdiv d Hour
  let nsec := Int.tmod d Hour
  float64 (float64 hour + float64 (float64 nsec / 3600000000000))

/-- Go's conversion of a `float64` to an integer type: the fraction is
dropped, rounding toward zero. -/
def truncToInt (x : ℚ) : Int := if 0 ≤ x then ⌊x⌋ else ⌈x⌉

end time

/-! ## Model of `strconv.Atoi` -/

namespace strconv

/-- The value of a decimal digit, `none` for any other character. -/
def digitVal (c : Char) : Option Nat :=
  if 48 ≤ c.toNat ∧ c.toNat ≤ 57 then some (c.toNat - 48) else none

/-- The number written by a string of decimal digits, read from the left with
`acc` as the value so far; `none` when a character is not a digit. -/
def parseDigits : List Char → Nat → Option Nat
  | [], acc => some acc
  | c :: cs, acc =>
    match digitVal c with
    | none => none
    | some v => parseDigits cs (acc * 10 + v)

/-- Go's `strconv.Atoi` on a 64-bit platform: an optional sign followed by at
least one decimal digit, with a value that fits in an `int64`; `none` stands
for a returned error (syntax or range). -/
def Atoi (s : String) : Option Int :=
  let body : Bool × List Char :=
    match s.toList with
    | [] => (false, [])
    | c :: cs =>
      if c = '-' then (true, cs)
      else if c = '+' then (false, cs)
      else (false, c :: cs)
  match body.2 with
  | [] => none
  | ds =>
    match parseDigits ds 0 with
    | none => none
    | some n =>
      let v : Int := if body.1 then -(n : Int) else (n : Int)
      if -9223372036854775808 ≤ v ∧ v ≤ 9223372036854775807 then some v else none

end strconv

/-! ## Package `githubapi` -/

namespace githubapi

open time

/-- The record `Repo` decoded from the repository listing. -/
structure Repo where
  Name : String
  Private : Bool
  UpdatedAt : Time
  SSHURL : String
  Language : String
deriving DecidableEq, Repr

/-- The record `commit`; the only field is `Commit.Committer.Date`. -/
structure commit where
  Date : Time
deriving DecidableEq, Repr

/-- The keys of the map `EXCLUDE_REPOS`. -/
def EXCLUDE_REPOS : List String := ["kickstart.nvim"]

/-- The initial value of the package-level variable `repos`. -/
def initialRepos : List Repo := []

/-- What one GET request meets, as far as `doRequest` and the JSON decoding
that follows can tell.  `α` is the type the body is decoded into. -/
inductive Reply (α : Type) where
  /-- The request cannot be built: `http.NewRequest` returns an error. -/
  | badRequest : Reply α
  /-- The transport fails: `client.Do` returns a nil response and an error. -/
  | noResponse : Reply α
  /-- A response arrives with this status code; `decoded` is what
  `json.NewDecoder(resp.Body).Decode` yields, `none` for a body that does not
  decode. -/
  | response (status : Nat) (decoded : Option α) : Reply α
deriving DecidableEq

/-- The inputs of one run: the clock, the reply to `GET /user/repos`, and the
reply to `GET /repos/aaronbittel/<name>/commits` for each repository name. -/
structure World where
  now : Time
  listing : Reply (List Repo)
  commits : String → Reply (List commit)

/-- How a call ends: with a value and a nil error, with a non-nil error, or in
a run-time panic. -/
inductive Outcome (α : Type) where
  | ok (a : α) : Outcome α
  | err : Outcome α
  | panic : Outcome α
deriving DecidableEq, Repr

/-- A line written by `log.Printf`. -/
inductive LogLine where
  | reposError : LogLine
  | commitsError (name : String) : LogLine
deriving DecidableEq, Repr

/-- The function `date`: `d.Date()` followed by
`time.Date(year, month, day, 0, 0, 0, 0, time.UTC)`. -/
def date (d : Time) : Time :=
  let ymd := d.Date
  time.Date ymd.year ymd.month ymd.day 0 0 0 0 time.UTC

/-- The function `timeDiffInDays`:
`int(time.Duration(today.Sub(date(commit)).Hours()) / 24)`. -/
def timeDiffInDays (today commit : Time) : Int :=
  let commitDate := date commit
  Int.tdiv (truncToInt (Hours (today.Sub commitDate))) 24

/-- The whole-day count `n` as it comes out of `timeDiffInDays`: a `Duration`
holds at most 106751 whole days, and `Sub` saturates beyond that. -/
def saturatedDays (n : Int) : Int :=
  if n < -106751 then -106751 else if 106751 < n then 106751 else n

/-- The function `filterPublicRepos`: the loop appends every repository that is
neither private nor a key of `EXCLUDE_REPOS`. -/
def filterPublicRepos (repos : List Repo) : List Repo :=
  repos.foldl
    (fun publicRepos repo =>
      if repo.Private then publicRepos
      else if repo.Name ∈ EXCLUDE_REPOS then publicRepos
      else publicRepos ++ [repo])
    []

/-- The function `doRequest`.  The status code is read from the response
before the error of `client.Do` is looked at, so a nil response panics; the
value returned on success stands for the response, seen through the decoding
of its body. -/
def doRequest {α : Type} (r : Reply α) : Outcome (Option α) :=
  match r with
  | .badRequest => .err
  | .noResponse => .panic
  | .response status decoded => if status ≠ 200 then .err else .ok decoded

/-- The function `retrievePublicRepos`: the new value of the package-level
`repos` and the way the call ends. -/
def retrievePublicRepos (w : World) (repos : List Repo) : List Repo × Outcome Unit :=
  match doRequest w.listing with
  | .panic => (repos, .panic)
  | .err => (repos, .err)
  | .ok none => (repos, .err)
  | .ok (some allRepos) => (filterPublicRepos allRepos, .ok ())

/-- The function `retrieveCommits`. -/
def retrieveCommits (w : World) (repo : Repo) : Outcome (List commit) :=
  match doRequest (w.commits repo.Name) with
  | .panic => .panic
  | .err => .err
  | .ok none => .err
  | .ok (some commits) => .ok commits

/-- The function `GetRepos`, reading the package-level list. -/
def GetRepos (repos : List Repo) : List Repo := repos

/-- What a run of `DidCommitToday` does: its result (`none` for a panic), the
repositories `retrieveCommits` was called for, in order, the lines logged, and
the package-level `repos` afterwards. -/
structure Run where
  result : Option Bool
  fetched : List Repo
  logged : List LogLine
  repos : List Repo
deriving DecidableEq, Repr

/-- The test of the inner loop of `DidCommitToday`: some commit of the list has
`timeDiffInDays(today, commit.Commit.Committer.Date) == 0`. -/
def anyCommitToday (today : Time) (commits : List commit) : Bool :=
  commits.any (fun c => timeDiffInDays today c.Date == 0)

/-- The loop `for _, repo := range repos` of `DidCommitToday`; the field
`repos` of the result carries the list that was scanned. -/
def scanRepos (w : World) (today : Time) (all : List Repo) : List Repo → Run
  | [] => ⟨some false, [], [], all⟩
  | repo :: rest =>
    if timeDiffInDays today repo.UpdatedAt > 10 then scanRepos w today all rest
    else
      match retrieveCommits w repo with
      | .panic => ⟨none, [repo], [], all⟩
      | .err =>
        let r := scanRepos w today all rest
        { r with fetched := repo :: r.fetched,
                 logged := LogLine.commitsError repo.Name :: r.logged }
      | .ok commits =>
        if anyCommitToday today commits then ⟨some true, [repo], [], all⟩
        else
          let r := scanRepos w today all rest
          { r with fetched := repo :: r.fetched }

/-- The function `DidCommitToday`, started with the package-level list
`repos`. -/
def DidCommitToday (w : World) (repos : List Repo) : Run :=
  match retrievePublicRepos w repos with
  | (repos1, .panic) => ⟨none, [], [], repos1⟩
  | (repos1, .err) =>
    let r := scanRepos w (date w.now) repos1 repos1
    { r with logged := LogLine.reposError :: r.logged }
  | (repos1, .ok _) => scanRepos w (date w.now) repos1 repos1

/-- The repository passes the staleness test of the loop:
`timeDiffInDays(today, repo.UpdatedAt) > 10` is false. -/
def fresh (today : Time) (repo : Repo) : Bool :=
  decide (timeDiffInDays today repo.UpdatedAt ≤ 10)

/-- The commit fetch for the repository succeeds and yields a commit that the
inner loop accepts as made today. -/
def commitsToday (w : World) (today : Time) (repo : Repo) : Bool :=
  match retrieveCommits w repo with
  | .ok commits => anyCommitToday today commits
  | _ => false

/-- The repositories of the listing response; the empty list when the listing
fetch fails. -/
def listed (w : World) : List Repo :=
  match doRequest w.listing with
  | .ok (some allRepos) => allRepos
  | _ => []

/-- The front part of a list up to and including the first element that
satisfies `p`; the whole list when there is none. -/
def takeThrough {α : Type} (p : α → Bool) : List α → List α
  | [] => []
  | a :: l => if p a then [a] else a :: takeThrough p l

/-- The timestamp is a midnight in UTC: no time of day, no nanoseconds, zero
offset. -/
def isMidnightUTC (t : Time) : Prop := t.sec % 86400 = 0 ∧ t.nsec = 0 ∧ t.offset = 0

/-- The formula of the specification for the age of a timestamp in days:
`floor((today - normalize(u)) / 24h)`, computed on the exact difference of
the two instants in nanoseconds. -/
def daysSinceUpdate (today u : Time) : Int :=
  ((today.sec - (date u).sec) * 1000000000 + (today.nsec - (date u).nsec)) / (24 * Hour)

/-- The package-level list after a sequence of calls of `DidCommitToday`, one
for each world, starting from the initial empty list. -/
def reposAfter (ws : List World) : List Repo :=
  ws.foldl (fun repos w => (DidCommitToday w repos).repos) initialRepos

end githubapi

/-! ## `getSelectedRepo` of package `main` -/

namespace Main

open githubapi

/-- What `getSelectedRepo` writes while it asks: the prompt, and the two
messages that reject a line. -/
inductive Message where
  | askRepoId : Message
  | enterNumber : Message
  | enterBetween (n : Nat) : Message
deriving DecidableEq, Repr

/-- How `getSelectedRepo` ends: it returns a repository, it panics on an index
out of range, or it never returns because the input has run out (every further
`scanner.Scan` fails, `scanner.Text` is empty and the loop asks again for
ever). -/
inductive Selection where
  | returned (repo : Repo) : Selection
  | indexOutOfRange : Selection
  | asksForEver : Selection
deriving DecidableEq, Repr

/-- Arithmetic of Go's `int` on a 64-bit platform: the value wraps around. -/
def wrapInt64 (x : Int) : Int := (x + 9223372036854775808) % 18446744073709551616 - 9223372036854775808

/-- The loop of `getSelectedRepo`.  The argument holds the successive values
of `scanner.Text()`, one for each line the scanner delivers; the result is the
way the function ends and what the loop wrote for the lines it read.  The menu
printed before the loop is left out. -/
def getSelectedRepo (repos : List Repo) : List String → Selection × List Message
  | [] => (.asksForEver, [])
  | userInput :: rest =>
    match strconv.Atoi userInput with
    | none =>
      let r := getSelectedRepo repos rest
      (r.1, .askRepoId :: .enterNumber :: r.2)
    | some repoId =>
      if wrapInt64 (repoId - 1) < 0 ∨ wrapInt64 (repoId - 1) ≥ (repos.length : Int) then
        let r := getSelectedRepo repos rest
        (r.1, .askRepoId :: .enterBetween repos.length :: r.2)
      else
        match repos[(wrapInt64 (repoId - 1)).toNat]? with
        | some repo => (.returned repo, [.askRepoId])
        | none => (.indexOutOfRange, [.askRepoId])

/-- The line is one that `getSelectedRepo` accepts for a list of `n`
repositories: it parses as an integer `k` with `1 ≤ k ≤ n`. -/
def validChoice (n : Nat) (line : String) : Bool :=
  match strconv.Atoi line with
  | none => false
  | some k => decide (1 ≤ k ∧ k ≤ (n : Int))

/-- The message that rejects a line which is not a valid choice. -/
def rejection (n : Nat) (line : String) : List Message :=
  match strconv.Atoi line with
  | none => [.askRepoId, .enterNumber]
  | some _ => [.askRepoId, .enterBetween n]

end Main

/-! ## Scenarios -/

namespace githubapi

open time

/-- A public repository last updated on 2024-06-14. -/
def repoA : Repo :=
  ⟨"A", false, time.Date 2024 6 14 0 0 0 0 time.UTC, "git@github.com:aaronbittel/A.git", "Go"⟩

/-- A public repository last updated on 2024-06-01. -/
def repoB : Repo :=
  ⟨"B", false, time.Date 2024 6 1 0 0 0 0 time.UTC, "git@github.com:aaronbittel/B.git", "Go"⟩

/-- The first scenario of the specification: it is 2024-06-15T00:00:00Z, the
listing holds `repoA`, whose history has one commit at 2024-06-15T23:00:00Z. -/
def scenarioA : World :=
  ⟨time.Date 2024 6 15 0 0 0 0 time.UTC,
   .response 200 (some [repoA]),
   fun name =>
     if name = "A" then .response 200 (some [⟨time.Date 2024 6 15 23 0 0 0 time.UTC⟩])
     else .response 404 none⟩

/-- A run on a machine five hours west of UTC: the clock shows
2024-06-15T23:00:00-05:00, which is 2024-06-16T04:00:00Z; the listing holds
`repoA`, whose history has one commit at 2024-06-16T01:00:00Z. -/
def scenarioWest : World :=
  ⟨time.Date 2024 6 15 23 0 0 0 (-18000),
   .response 200 (some [repoA]),
   fun name =>
     if name = "A" then .response 200 (some [⟨time.Date 2024 6 16 1 0 0 0 time.UTC⟩])
     else .response 404 none⟩

/-- The clock shows 2024-06-15T00:00:00Z; the listing holds `repoA`, whose
history has one commit stamped 2024-06-15T23:00:00-05:00, the instant
2024-06-16T04:00:00Z. -/
def scenarioOffsetCommit : World :=
  ⟨time.Date 2024 6 15 0 0 0 0 time.UTC,
   .response 200 (some [repoA]),
   fun name =>
     if name = "A" then .response 200 (some [⟨time.Date 2024 6 15 23 0 0 0 (-18000)⟩])
     else .response 404 none⟩

/-- The second scenario of the specification: it is 2024-06-15, the listing
holds `repoB`, last updated on 2024-06-01; its history has a commit made at
noon of 2024-06-15. -/
def scenarioB : World :=
  ⟨time.Date 2024 6 15 0 0 0 0 time.UTC,
   .response 200 (some [repoB]),
   fun _ => .response 200 (some [⟨time.Date 2024 6 15 12 0 0 0 time.UTC⟩])⟩

/-- The listing request gets status 500 on 2024-06-15; the history of every
repository has a commit made at noon of that day. -/
def scenarioListingDown : World :=
  ⟨time.Date 2024 6 15 0 0 0 0 time.UTC,
   .response 500 none,
   fun _ => .response 200 (some [⟨time.Date 2024 6 15 12 0 0 0 time.UTC⟩])⟩

/-- The listing holds `repoA` and `repoB`, both updated on 2024-06-15; the
commit request for `repoA` gets no response, the history of `repoB` has a
commit made at noon of 2024-06-15. -/
def scenarioCommitsUnreachable : World :=
  ⟨time.Date 2024 6 15 0 0 0 0 time.UTC,
   .response 200 (some [{ repoA with UpdatedAt := time.Date 2024 6 15 0 0 0 0 time.UTC },
     { repoB with UpdatedAt := time.Date 2024 6 15 0 0 0 0 time.UTC }]),
   fun name =>
     if name = "A" then .noResponse
     else .response 200 (some [⟨time.Date 2024 6 15 12 0 0 0 time.UTC⟩])⟩

/-- A private repository. -/
def repoSecret : Repo :=
  ⟨"secret", true, time.Date 2024 6 15 0 0 0 0 time.UTC, "git@github.com:aaronbittel/secret.git", "Go"⟩

/-- A public repository named in `EXCLUDE_REPOS`, updated on 2024-06-15. -/
def repoKickstart : Repo :=
  ⟨"kickstart.nvim", false, time.Date 2024 6 15 0 0 0 0 time.UTC,
   "git@github.com:aaronbittel/kickstart.nvim.git", "Lua"⟩

/-- The timestamp 2024-06-15T23:00:00-05:00, the instant 2024-06-16T04:00:00Z. -/
def lateEvening : Time := time.Date 2024 6 15 23 0 0 0 (-18000)

/-- The zero value of `time.Time`, 0001-01-01T00:00:00Z, which a missing
`updated_at` field leaves in `UpdatedAt`. -/
def zeroTime : Time := time.Date 1 1 1 0 0 0 0 time.UTC

end githubapi

/-! ## Facts about the model of package `time` -/

namespace time

theorem roundHalfEven_between (y : ℚ) (a b : ℤ) (ha : (a : ℚ) ≤ y) (hb : y ≤ (b : ℚ)) :
    a ≤ roundHalfEven y ∧ roundHalfEven y ≤ b := by
  have hfa : a ≤ ⌊y⌋ := Int.le_floor.mpr ha
  have hfy : (⌊y⌋ : ℚ) ≤ y := Int.floor_le y
  have hfb : ⌊y⌋ ≤ b := by exact_mod_cast hfy.trans hb
  have hup : (1 : ℚ) / 2 ≤ y - ⌊y⌋ → ⌊y⌋ + 1 ≤ b := by
    intro h
    have : (⌊y⌋ : ℚ) < b := by linarith
    have : ⌊y⌋ < b := by exact_mod_cast this
    omega
  unfold roundHalfEven
  simp only
  split_ifs with h1 h2 h3
  · exact ⟨hfa, hfb⟩
  · exact ⟨by omega, hup (le_of_lt h2)⟩
  · exact ⟨hfa, hfb⟩
  · exact ⟨by omega, hup (not_lt.mp h1)⟩

theorem float64_between (x : ℚ) (e : ℤ) (he : Int.log 2 |x| - 52 = e) (a b : ℤ)
    (ha : (a : ℚ) * 2 ^ e ≤ x) (hb : x ≤ (b : ℚ) * 2 ^ e) :
    (a : ℚ) * 2 ^ e ≤ float64 x ∧ float64 x ≤ (b : ℚ) * 2 ^ e := by
  have hpos : (0 : ℚ) < 2 ^ e := zpow_pos (by norm_num) e
  unfold float64
  split_ifs with h0
  · subst h0
    exact ⟨ha, hb⟩
  · simp only [he]
    have h1 : (a : ℚ) ≤ x / 2 ^ e := (le_div_iff₀ hpos).mpr ha
    have h2 : x / 2 ^ e ≤ (b : ℚ) := (div_le_iff₀ hpos).mpr hb
    obtain ⟨r1, r2⟩ := roundHalfEven_between _ a b h1 h2
    constructor
    · exact mul_le_mul_of_nonneg_right (by exact_mod_cast r1) hpos.le
    · exact mul_le_mul_of_nonneg_right (by exact_mod_cast r2) hpos.le

theorem log_two_eq (x : ℚ) (k : ℤ) (h1 : (2 : ℚ) ^ k ≤ x) (h2 : x < (2 : ℚ) ^ (k + 1)) :
    Int.log 2 x = k := by
  have hx : 0 < x := lt_of_lt_of_le (zpow_pos (by norm_num) k) h1
  have a1 : k ≤ Int.log 2 x := by
    rw [← Int.zpow_le_iff_le_log (by norm_num) hx]
    simpa using h1
  have a2 : Int.log 2 x < k + 1 := by
    rw [← Int.lt_zpow_iff_log_lt (by norm_num) hx]
    simpa using h2
  omega

theorem float64_intCast (n : ℤ) (h : |n| < 2 ^ 53) : float64 (n : ℚ) = n := by
  by_cases h0 : n = 0
  · subst h0
    simp [float64]
  have hx : (0 : ℚ) < |(n : ℚ)| := abs_pos.mpr (by exact_mod_cast h0)
  have hlog : Int.log 2 |(n : ℚ)| < 53 := by
    rw [← Int.lt_zpow_iff_log_lt (by norm_num) hx]
    have h53 : |(n : ℚ)| < (2 : ℚ) ^ (53 : ℕ) := by exact_mod_cast h
    rw [← zpow_natCast] at h53
    simpa using h53
  obtain ⟨k, hk⟩ : ∃ k : ℕ, Int.log 2 |(n : ℚ)| - 52 = -(k : ℤ) :=
    ⟨(52 - Int.log 2 |(n : ℚ)|).toNat, by omega⟩
  have hval : ((n * 2 ^ k : ℤ) : ℚ) * 2 ^ (-(k : ℤ)) = n := by
    push_cast
    rw [zpow_neg, zpow_natCast, mul_assoc, mul_inv_cancel₀ (by positivity), mul_one]
  have := float64_between (n : ℚ) (-(k : ℤ)) hk (n * 2 ^ k) (n * 2 ^ k) hval.le hval.ge
  rw [hval] at this
  exact le_antisymm this.2 this.1

end time


namespace time

theorem float64_between_eighths (x : ℚ) (a b : ℤ) (hx : |x| < 2 ^ 50)
    (ha : (a : ℚ) / 8 ≤ x) (hb : x ≤ (b : ℚ) / 8) :
    (a : ℚ) / 8 ≤ float64 x ∧ float64 x ≤ (b : ℚ) / 8 := by
  by_cases h0 : x = 0
  · subst h0
    simpa [float64] using And.intro ha hb
  have hpos : (0 : ℚ) < |x| := abs_pos.mpr h0
  have hlog : Int.log 2 |x| < 50 := by
    rw [← Int.lt_zpow_iff_log_lt (by norm_num) hpos]
    have h50 : |x| < (2 : ℚ) ^ (50 : ℕ) := hx
    rw [← zpow_natCast] at h50
    simpa using h50
  obtain ⟨k, hk⟩ : ∃ k : ℕ, Int.log 2 |x| - 52 = -((k + 3 : ℕ) : ℤ) :=
    ⟨(49 - Int.log 2 |x|).toNat, by omega⟩
  have hval : ∀ c : ℤ, ((c * 2 ^ k : ℤ) : ℚ) * 2 ^ (-((k + 3 : ℕ) : ℤ)) = (c : ℚ) / 8 := by
    intro c
    have h8 : (2 : ℚ) ^ ((k : ℤ) + 3) = 2 ^ k * 8 := by
      rw [zpow_add₀ (by norm_num), zpow_natCast]
      norm_num
    push_cast
    rw [zpow_neg, h8]
    field_simp
    ring
  have := float64_between x _ hk (a * 2 ^ k) (b * 2 ^ k)
    (by rw [hval]; exact ha) (by rw [hval]; exact hb)
  rw [hval, hval] at this
  exact this

theorem tdiv_tmod_cases (d H : ℤ) (hH : 0 < H) :
    (0 ≤ d ∧ Int.tdiv d H = d / H ∧ Int.tmod d H = d % H) ∨
    (d < 0 ∧ Int.tdiv d H = -((-d) / H) ∧ Int.tmod d H = -((-d) % H)) := by
  rcases le_or_lt 0 d with h | h
  · exact Or.inl ⟨h, Int.tdiv_eq_ediv h hH.le, Int.tmod_eq_emod h hH.le⟩
  · right
    have h1 : Int.tdiv d H = -((-d) / H) := by
      have e1 : Int.tdiv (-(-d)) H = -(Int.tdiv (-d) H) := Int.neg_tdiv (-d) H
      rw [neg_neg] at e1
      rw [e1, Int.tdiv_eq_ediv (by omega) hH.le]
    refine ⟨h, h1, ?_⟩
    have h2 := Int.tdiv_add_tmod d H
    have h3 := Int.emod_add_ediv (-d) H
    rw [h1] at h2
    linarith

theorem truncToInt_Hours (d : ℤ) (hd : minDuration ≤ d ∧ d ≤ maxDuration)
    (hn : |Int.tmod d Hour| * 8 ≤ 7 * Hour) :
    truncToInt (Hours d) = Int.tdiv d Hour := by
  have hH : Hour = 3600000000000 := rfl
  rw [hH] at hn ⊢
  have hd1 : (-9223372036854775808 : ℤ) ≤ d := hd.1
  have hd2 : d ≤ (9223372036854775807 : ℤ) := hd.2
  have hn1 : |Int.tmod d 3600000000000| ≤ 3150000000000 := by omega
  rw [abs_le] at hn1
  unfold Hours
  simp only [hH]
  rcases tdiv_tmod_cases d 3600000000000 (by norm_num) with ⟨h0, e1, e2⟩ | ⟨h0, e1, e2⟩
  · have b1 : 0 ≤ Int.tdiv d 3600000000000 ∧ Int.tdiv d 3600000000000 < 4194304 := by omega
    have b2 : 0 ≤ Int.tmod d 3600000000000 := by omega
    generalize Int.tdiv d 3600000000000 = hour at *
    generalize Int.tmod d 3600000000000 = nsec at *
    rw [float64_intCast hour (by rw [abs_lt]; constructor <;> omega),
      float64_intCast nsec (by rw [abs_lt]; constructor <;> omega)]
    have hx0 : (0 : ℚ) ≤ (nsec : ℚ) / 3600000000000 := by positivity
    have hx1 : (nsec : ℚ) / 3600000000000 ≤ 7 / 8 := by
      rw [div_le_iff₀ (by norm_num)]
      have : (nsec : ℚ) ≤ 3150000000000 := by exact_mod_cast hn1.2
      linarith
    obtain ⟨q0, q1⟩ := float64_between_eighths ((nsec : ℚ) / 3600000000000) 0 7
      (by rw [abs_lt]; constructor <;> linarith) (by simpa using hx0) (by simpa using hx1)
    generalize float64 ((nsec : ℚ) / 3600000000000) = q at q0 q1
    have hh0 : (0 : ℚ) ≤ hour := by exact_mod_cast b1.1
    have hh1 : (hour : ℚ) < 4194304 := by exact_mod_cast b1.2
    obtain ⟨s0, s1⟩ := float64_between_eighths ((hour : ℚ) + q) (8 * hour) (8 * hour + 7)
      (by rw [abs_lt]; constructor <;> norm_num at q0 q1 ⊢ <;> linarith)
      (by push_cast; norm_num at q0 ⊢; linarith) (by push_cast; norm_num at q1 ⊢; linarith)
    generalize float64 ((hour : ℚ) + q) = s at s0 s1
    push_cast at s0 s1
    unfold truncToInt
    rw [if_pos (by linarith)]
    rw [Int.floor_eq_iff]
    constructor <;> linarith
  · have b1 : -4194304 < Int.tdiv d 3600000000000 ∧ Int.tdiv d 3600000000000 ≤ 0 := by omega
    have b2 : Int.tmod d 3600000000000 ≤ 0 := by omega
    generalize Int.tdiv d 3600000000000 = hour at *
    generalize Int.tmod d 3600000000000 = nsec at *
    rw [float64_intCast hour (by rw [abs_lt]; constructor <;> omega),
      float64_intCast nsec (by rw [abs_lt]; constructor <;> omega)]
    have hx0 : (nsec : ℚ) / 3600000000000 ≤ 0 := by
      apply div_nonpos_of_nonpos_of_nonneg _ (by norm_num)
      exact_mod_cast b2
    have hx1 : -7 / 8 ≤ (nsec : ℚ) / 3600000000000 := by
      rw [le_div_iff₀ (by norm_num)]
      have : (-3150000000000 : ℚ) ≤ nsec := by exact_mod_cast hn1.1
      linarith
    obtain ⟨q0, q1⟩ := float64_between_eighths ((nsec : ℚ) / 3600000000000) (-7) 0
      (by rw [abs_lt]; constructor <;> linarith) (by simpa using hx1) (by simpa using hx0)
    generalize float64 ((nsec : ℚ) / 3600000000000) = q at q0 q1
    have hh0 : (hour : ℚ) ≤ 0 := by exact_mod_cast b1.2
    have hh1 : (-4194304 : ℚ) < hour := by exact_mod_cast b1.1
    obtain ⟨s0, s1⟩ := float64_between_eighths ((hour : ℚ) + q) (8 * hour - 7) (8 * hour)
      (by rw [abs_lt]; constructor <;> norm_num at q0 q1 ⊢ <;> linarith)
      (by push_cast; norm_num at q0 ⊢; linarith) (by push_cast; norm_num at q1 ⊢; linarith)
    generalize float64 ((hour : ℚ) + q) = s at s0 s1
    push_cast at s0 s1
    unfold truncToInt
    split_ifs with hs
    · rw [Int.floor_eq_iff]
      constructor <;> linarith
    · rw [Int.ceil_eq_iff]
      constructor <;> linarith
end time

namespace time

theorem civilFromDays_examples :
    civilFromDays 0 = ⟨1970, 1, 1⟩ ∧ civilFromDays 19889 = ⟨2024, 6, 15⟩ ∧
    civilFromDays 11016 = ⟨2000, 2, 29⟩ ∧ civilFromDays 11017 = ⟨2000, 3, 1⟩ ∧
    civilFromDays (-25509) = ⟨1900, 2, 28⟩ ∧ civilFromDays (-25508) = ⟨1900, 3, 1⟩ ∧
    civilFromDays 19722 = ⟨2023, 12, 31⟩ ∧ civilFromDays 19723 = ⟨2024, 1, 1⟩ ∧
    civilFromDays (-719162) = ⟨1, 1, 1⟩ ∧ civilFromDays (-1) = ⟨1969, 12, 31⟩ := by
  decide

theorem daysFromCivil_cycles (era c q a doy : ℤ)
    (hc : 0 ≤ c ∧ c ≤ 3) (hq : 0 ≤ q ∧ q ≤ 24) (ha : 0 ≤ a ∧ a ≤ 3)
    (hd : 0 ≤ doy ∧ doy ≤ 365) :
    daysFromCivil
      (400 * era + 100 * c + 4 * q + a +
        (if (if (5 * doy + 2) / 153 < 10 then (5 * doy + 2) / 153 + 3
              else (5 * doy + 2) / 153 - 9) ≤ 2 then 1 else 0))
      (if (5 * doy + 2) / 153 < 10 then (5 * doy + 2) / 153 + 3 else (5 * doy + 2) / 153 - 9)
      (doy - (153 * ((5 * doy + 2) / 153) + 2) / 5 + 1)
      = 146097 * era + 36524 * c + 1461 * q + 365 * a + doy - 719468 := by
  have hmp : 0 ≤ (5 * doy + 2) / 153 ∧ (5 * doy + 2) / 153 ≤ 11 := by omega
  generalize (5 * doy + 2) / 153 = mp at hmp ⊢
  simp only [daysFromCivil]
  split_ifs <;> omega

theorem daysFromCivil_civilFromDays (z : ℤ) :
    daysFromCivil (civilFromDays z).year (civilFromDays z).month (civilFromDays z).day = z := by
  have h0 : 0 ≤ (z + 719468) % 146097 ∧ (z + 719468) % 146097 < 146097 := by omega
  have hz : z = 146097 * ((z + 719468) / 146097) + (z + 719468) % 146097 - 719468 := by omega
  simp only [civilFromDays]
  generalize (z + 719468) % 146097 = doe at h0 hz ⊢
  generalize (z + 719468) / 146097 = era at hz ⊢
  have hc : 0 ≤ min (doe / 36524) 3 ∧ min (doe / 36524) 3 ≤ 3 := by omega
  have hr1 : 0 ≤ doe - 36524 * min (doe / 36524) 3 ∧
      doe - 36524 * min (doe / 36524) 3 ≤ 36524 := by omega
  generalize min (doe / 36524) 3 = c at hc hr1 ⊢
  have hdoe : doe = 36524 * c + (doe - 36524 * c) := by omega
  generalize doe - 36524 * c = r1 at hr1 hdoe ⊢
  have hq : 0 ≤ r1 / 1461 ∧ r1 / 1461 ≤ 24 := by omega
  have hr2 : 0 ≤ r1 % 1461 ∧ r1 % 1461 ≤ 1460 := by omega
  have hr1e : r1 = 1461 * (r1 / 1461) + r1 % 1461 := by omega
  generalize r1 / 1461 = q at hq hr1e ⊢
  generalize r1 % 1461 = r2 at hr2 hr1e ⊢
  have ha : 0 ≤ min (r2 / 365) 3 ∧ min (r2 / 365) 3 ≤ 3 := by omega
  have hdoy : 0 ≤ r2 - 365 * min (r2 / 365) 3 ∧ r2 - 365 * min (r2 / 365) 3 ≤ 365 := by omega
  generalize min (r2 / 365) 3 = a at ha hdoy ⊢
  have hr2e : r2 = 365 * a + (r2 - 365 * a) := by omega
  generalize r2 - 365 * a = doy at hdoy hr2e ⊢
  rw [daysFromCivil_cycles era c q a doy hc hq ha hdoy]
  omega

theorem civilFromDays_month (z : ℤ) :
    1 ≤ (civilFromDays z).month ∧ (civilFromDays z).month ≤ 12 := by
  simp only [civilFromDays]
  split_ifs <;> omega

theorem civilFromDays_day (z : ℤ) :
    1 ≤ (civilFromDays z).day ∧ (civilFromDays z).day ≤ 31 := by
  simp only [civilFromDays]
  omega

end time

namespace githubapi
open time

theorem date_eq (t : Time) : date t = ⟨t.wallDay * 86400, 0, 0⟩ := by
  have hm := civilFromDays_month t.wallDay
  have hr := daysFromCivil_civilFromDays t.wallDay
  unfold date time.Date Time.Date time.norm time.UTC
  simp only
  have e1 : ((civilFromDays t.wallDay).month - 1) / 12 = 0 := by omega
  have e2 : ((civilFromDays t.wallDay).month - 1) % 12 + 1 = (civilFromDays t.wallDay).month := by
    omega
  simp only [e1, e2, add_zero, hr]
  norm_num
  exact hr

theorem wallDay_date (t : Time) : (date t).wallDay = t.wallDay := by
  rw [date_eq]
  simp only [Time.wallDay]
  omega

theorem sub_midnights (x y : ℤ) :
    Time.Sub ⟨x * 86400, 0, 0⟩ ⟨y * 86400, 0, 0⟩ =
      if x - y < -106751 then minDuration
      else if 106751 < x - y then maxDuration
      else (x - y) * 24 * Hour := by
  have hmin : minDuration = (-9223372036854775808 : ℤ) := rfl
  have hmax : maxDuration = (9223372036854775807 : ℤ) := rfl
  have hH : Hour = (3600000000000 : ℤ) := rfl
  simp only [Time.Sub, hmin, hmax, hH]
  split_ifs <;> omega

theorem timeDiffInDays_date (a b : Time) :
    timeDiffInDays (date a) b = saturatedDays (a.wallDay - b.wallDay) := by
  unfold timeDiffInDays
  simp only [date_eq, sub_midnights]
  generalize a.wallDay - b.wallDay = n
  have hH : Hour = (3600000000000 : ℤ) := rfl
  unfold saturatedDays
  split_ifs with h1 h2
  · rw [truncToInt_Hours _ (by decide) (by decide)]
    decide
  · rw [truncToInt_Hours _ (by decide) (by decide)]
    decide
  · have hmin : minDuration = (-9223372036854775808 : ℤ) := rfl
    have hmax : maxDuration = (9223372036854775807 : ℤ) := rfl
    have e1 : Int.tmod (n * 24 * Hour) Hour = 0 := Int.mul_tmod_left _ _
    have e2 : Int.tdiv (n * 24 * Hour) Hour = n * 24 := Int.mul_tdiv_cancel _ (by decide)
    rw [truncToInt_Hours _ (by rw [hmin, hmax, hH]; constructor <;> omega)
      (by rw [e1]; decide), e2]
    exact Int.mul_tdiv_cancel _ (by decide)

end githubapi

/-! ## The loop of `DidCommitToday` -/

namespace githubapi
open time

theorem scanRepos_repos (w : World) (today : Time) (all l : List Repo) :
    (scanRepos w today all l).repos = all := by
  induction l with
  | nil => rfl
  | cons r rest ih =>
    unfold scanRepos
    split_ifs
    · exact ih
    · split
      · rfl
      · exact ih
      · split_ifs
        · rfl
        · exact ih

theorem scanRepos_filter (w : World) (today : Time) (all l : List Repo) :
    scanRepos w today all l = scanRepos w today all (l.filter (fresh today)) := by
  induction l with
  | nil => rfl
  | cons r rest ih =>
    by_cases h : timeDiffInDays today r.UpdatedAt > 10
    · have hf : fresh today r = false := by simp [fresh, h]
      rw [List.filter_cons_of_neg (by simp [hf])]
      rw [← ih]
      simp [scanRepos, h]
    · have hf : fresh today r = true := by simpa [fresh] using h
      rw [List.filter_cons_of_pos hf]
      simp only [scanRepos, h, if_false, ← ih]

theorem scanRepos_congr (w w2 : World) (today : Time) (all l : List Repo)
    (h : ∀ r ∈ l, timeDiffInDays today r.UpdatedAt ≤ 10 →
      retrieveCommits w2 r = retrieveCommits w r) :
    scanRepos w2 today all l = scanRepos w today all l := by
  induction l with
  | nil => rfl
  | cons r rest ih =>
    have ih1 := ih (fun x hx => h x (List.mem_cons_of_mem _ hx))
    by_cases hs : timeDiffInDays today r.UpdatedAt > 10
    · simp only [scanRepos, hs, if_true, ih1]
    · have hr := h r (List.mem_cons_self _ _) (by omega)
      simp only [scanRepos, hs, if_false, ih1, hr]

theorem scanRepos_fetched_fresh (w : World) (today : Time) (all l : List Repo) :
    ∀ r ∈ (scanRepos w today all l).fetched, timeDiffInDays today r.UpdatedAt ≤ 10 := by
  induction l with
  | nil => simp [scanRepos]
  | cons r rest ih =>
    unfold scanRepos
    split_ifs with h
    · exact ih
    · have hr : timeDiffInDays today r.UpdatedAt ≤ 10 := by omega
      split
      · simpa using hr
      · simpa using ⟨hr, ih⟩
      · split_ifs
        · simpa using hr
        · simpa using ⟨hr, ih⟩

theorem scanRepos_result (w : World) (today : Time) (all l : List Repo)
    (hp : ∀ r ∈ l, retrieveCommits w r ≠ .panic) :
    (scanRepos w today all l).result =
      some (l.any (fun r => fresh today r && commitsToday w today r)) := by
  induction l with
  | nil => rfl
  | cons r rest ih =>
    have ih1 := ih (fun x hx => hp x (List.mem_cons_of_mem _ hx))
    have hr := hp r (List.mem_cons_self _ _)
    unfold scanRepos
    split_ifs with h
    · have hf : fresh today r = false := by simp [fresh, h]
      simp [ih1, hf]
    · have hf : fresh today r = true := by simpa [fresh] using h
      split
      · rename_i e
        exact absurd e hr
      · rename_i e
        simp [ih1, hf, commitsToday, e]
      · rename_i cs e
        split_ifs with hc
        · simp [hf, commitsToday, e, hc]
        · simp [ih1, hf, commitsToday, e, hc]

theorem scanRepos_fetched (w : World) (today : Time) (all l : List Repo)
    (hp : ∀ r ∈ l, retrieveCommits w r ≠ .panic) :
    (scanRepos w today all l).fetched =
      takeThrough (commitsToday w today) (l.filter (fresh today)) := by
  induction l with
  | nil => rfl
  | cons r rest ih =>
    have ih1 := ih (fun x hx => hp x (List.mem_cons_of_mem _ hx))
    have hr := hp r (List.mem_cons_self _ _)
    unfold scanRepos
    split_ifs with h
    · have hf : fresh today r = false := by simp [fresh, h]
      rw [List.filter_cons_of_neg (by simp [hf])]
      exact ih1
    · have hf : fresh today r = true := by simpa [fresh] using h
      rw [List.filter_cons_of_pos hf]
      split
      · rename_i e
        exact absurd e hr
      · rename_i e
        simp [ih1, takeThrough, commitsToday, e]
      · rename_i cs e
        split_ifs with hc
        · simp [takeThrough, commitsToday, e, hc]
        · simp [ih1, takeThrough, commitsToday, e, hc]

end githubapi

/-! ## Supporting facts for the claims -/

namespace githubapi
open time

theorem filterPublicRepos_foldl (acc l : List Repo) :
    l.foldl
        (fun publicRepos repo =>
          if repo.Private then publicRepos
          else if repo.Name ∈ EXCLUDE_REPOS then publicRepos
          else publicRepos ++ [repo])
        acc =
      acc ++ l.filter (fun r => !r.Private && decide (r.Name ∉ EXCLUDE_REPOS)) := by
  induction l generalizing acc with
  | nil => simp
  | cons r rest ih =>
    rw [List.foldl_cons, ih]
    by_cases hp : r.Private = true
    · simp [hp]
    · by_cases hx : r.Name ∈ EXCLUDE_REPOS
      · simp [hp, hx]
      · simp [hp, hx]

theorem filterPublicRepos_eq_filter (l : List Repo) :
    filterPublicRepos l =
      l.filter (fun r => !r.Private && decide (r.Name ∉ EXCLUDE_REPOS)) := by
  unfold filterPublicRepos
  rw [filterPublicRepos_foldl]
  simp

theorem mem_filterPublicRepos (l : List Repo) (r : Repo) :
    r ∈ filterPublicRepos l ↔ r ∈ l ∧ r.Private = false ∧ r.Name ∉ EXCLUDE_REPOS := by
  rw [filterPublicRepos_eq_filter]
  simp [List.mem_filter]

theorem retrievePublicRepos_allowed (w : World) (repos : List Repo)
    (h : ∀ r ∈ repos, r.Private = false ∧ r.Name ∉ EXCLUDE_REPOS) :
    ∀ r ∈ (retrievePublicRepos w repos).1, r.Private = false ∧ r.Name ∉ EXCLUDE_REPOS := by
  unfold retrievePublicRepos
  split
  · exact h
  · exact h
  · exact h
  · intro r hr
    exact ((mem_filterPublicRepos _ r).mp hr).2

theorem DidCommitToday_repos (w : World) (repos : List Repo) :
    (DidCommitToday w repos).repos = (retrievePublicRepos w repos).1 := by
  unfold DidCommitToday
  split
  · rename_i e
    simp [e]
  · rename_i e
    simp [e, scanRepos_repos]
  · rename_i e
    simp [e, scanRepos_repos]

theorem reposAfter_allowed (ws : List World) :
    ∀ r ∈ reposAfter ws, r.Private = false ∧ r.Name ∉ EXCLUDE_REPOS := by
  unfold reposAfter
  suffices key : ∀ (l : List World) (init : List Repo),
      (∀ r ∈ init, r.Private = false ∧ r.Name ∉ EXCLUDE_REPOS) →
      ∀ r ∈ l.foldl (fun repos w => (DidCommitToday w repos).repos) init,
        r.Private = false ∧ r.Name ∉ EXCLUDE_REPOS from
    key ws initialRepos (by simp [initialRepos])
  intro l
  induction l with
  | nil => intro init h; simpa using h
  | cons w rest ih =>
    intro init h
    rw [List.foldl_cons]
    apply ih
    rw [DidCommitToday_repos]
    exact retrievePublicRepos_allowed w init h

theorem civilFromDays_injective (x y : ℤ) (h : civilFromDays x = civilFromDays y) : x = y := by
  have hx := daysFromCivil_civilFromDays x
  have hy := daysFromCivil_civilFromDays y
  rw [h] at hx
  rw [← hx, hy]

theorem Date_eq_iff (a b : Time) : a.Date = b.Date ↔ a.wallDay = b.wallDay := by
  unfold Time.Date
  constructor
  · exact civilFromDays_injective _ _
  · intro h
    rw [h]

theorem saturatedDays_eq_zero (n : ℤ) : saturatedDays n = 0 ↔ n = 0 := by
  unfold saturatedDays
  split_ifs <;> constructor <;> intro h <;> first | omega | exact absurd h (by decide)

theorem anyCommitToday_iff (now : Time) (cs : List commit) :
    anyCommitToday (date now) cs = true ↔ ∃ c ∈ cs, c.Date.Date = now.Date := by
  unfold anyCommitToday
  simp only [List.any_eq_true, beq_iff_eq, timeDiffInDays_date, saturatedDays_eq_zero,
    Date_eq_iff]
  constructor
  · rintro ⟨c, hc, h⟩
    exact ⟨c, hc, by omega⟩
  · rintro ⟨c, hc, h⟩
    exact ⟨c, hc, by omega⟩

theorem retrieveCommits_ne_panic (w : World) (r : Repo)
    (h : w.commits r.Name ≠ .noResponse) : retrieveCommits w r ≠ .panic := by
  unfold retrieveCommits doRequest
  cases hc : w.commits r.Name with
  | badRequest => simp
  | noResponse => exact absurd hc h
  | response status decoded =>
    by_cases hs : status = 200
    · cases decoded <;> simp [hs]
    · simp [hs]

theorem commitsToday_iff (w : World) (now : Time) (r : Repo) :
    commitsToday w (date now) r = true ↔
      ∃ cs, retrieveCommits w r = .ok cs ∧ ∃ c ∈ cs, c.Date.Date = now.Date := by
  unfold commitsToday
  cases h : retrieveCommits w r with
  | ok cs => simp [anyCommitToday_iff]
  | err => simp
  | panic => simp

end githubapi

/-! ## The claims -/

namespace githubapi
open time

theorem DidCommitToday_result (w : World) (repos : List Repo)
    (hl : w.listing ≠ .noResponse) (hc : ∀ name, w.commits name ≠ .noResponse) :
    (DidCommitToday w repos).result =
      some ((retrievePublicRepos w repos).1.any
        (fun r => fresh (date w.now) r && commitsToday w (date w.now) r)) := by
  have hp : ∀ l : List Repo, ∀ r ∈ l, retrieveCommits w r ≠ .panic :=
    fun l r _ => retrieveCommits_ne_panic w r (hc r.Name)
  unfold DidCommitToday
  split
  · rename_i repos1 e
    exfalso
    unfold retrievePublicRepos doRequest at e
    cases hw : w.listing with
    | badRequest => simp [hw] at e
    | noResponse => exact hl hw
    | response status decoded =>
      rw [hw] at e
      by_cases hs : status = 200
      · cases decoded <;> simp [hs] at e
      · simp [hs] at e
  · rename_i repos1 e
    simp only [e]
    exact scanRepos_result w _ _ _ (hp _)
  · rename_i repos1 u e
    simp only [e]
    exact scanRepos_result w _ _ _ (hp _)

theorem retrievePublicRepos_initial (w : World) :
    (retrievePublicRepos w initialRepos).1 = filterPublicRepos (listed w) := by
  unfold retrievePublicRepos listed
  cases h : doRequest w.listing with
  | ok d => cases d <;> simp [initialRepos, filterPublicRepos]
  | err => simp [initialRepos, filterPublicRepos]
  | panic => simp [initialRepos, filterPublicRepos]

/-- C1, as amended.  Provided no request is left without a response,
`DidCommitToday`, called with the initial empty package list, returns true
exactly when some repository of the listing is public, is not named in
`EXCLUDE_REPOS`, is not stale (`timeDiffInDays(today, UpdatedAt) <= 10`), has a
commit fetch that succeeds, and has a commit whose calendar date in the zone of
its timestamp equals the calendar date the clock shows in its own zone;
otherwise it returns false. -/
theorem C1_didCommitToday_iff (w : World)
    (hl : w.listing ≠ .noResponse) (hc : ∀ name, w.commits name ≠ .noResponse) :
    ((DidCommitToday w initialRepos).result = some true ↔
      ∃ r ∈ listed w, r.Private = false ∧ r.Name ∉ EXCLUDE_REPOS ∧
        timeDiffInDays (date w.now) r.UpdatedAt ≤ 10 ∧
        ∃ cs, retrieveCommits w r = .ok cs ∧ ∃ c ∈ cs, c.Date.Date = w.now.Date) ∧
    ((DidCommitToday w initialRepos).result = some true ∨
      (DidCommitToday w initialRepos).result = some false) := by
  rw [DidCommitToday_result w initialRepos hl hc, retrievePublicRepos_initial]
  constructor
  · simp only [Option.some.injEq, List.any_eq_true, Bool.and_eq_true, mem_filterPublicRepos,
      commitsToday_iff, fresh, decide_eq_true_eq]
    constructor
    · rintro ⟨r, ⟨h1, h2, h3⟩, h4, h5⟩
      exact ⟨r, h1, h2, h3, h4, h5⟩
    · rintro ⟨r, h1, h2, h3, h4, h5⟩
      exact ⟨r, ⟨h1, h2, h3⟩, h4, h5⟩
  · cases List.any (filterPublicRepos (listed w))
      (fun r => fresh (date w.now) r && commitsToday w (date w.now) r) <;> simp

/-- C1, the scenario of the specification: at 2024-06-15T00:00:00Z, with
`repoA` updated on 2024-06-14 and a commit at 2024-06-15T23:00:00Z, the result
is true. -/
theorem C1_didCommitToday_iff_witness :
    (DidCommitToday scenarioA initialRepos).result = some true :=
  (C1_didCommitToday_iff scenarioA (by simp [scenarioA])
    (by intro name; simp only [scenarioA]; split_ifs <;> simp)).1.mpr
    ⟨repoA, by simp [listed, scenarioA, doRequest], by simp [repoA],
      by simp [repoA, EXCLUDE_REPOS],
      by
        rw [timeDiffInDays_date]
        decide,
      [⟨time.Date 2024 6 15 23 0 0 0 time.UTC⟩],
      by simp [retrieveCommits, doRequest, scenarioA, repoA],
      ⟨time.Date 2024 6 15 23 0 0 0 time.UTC⟩, by simp, by decide⟩

/-- C1 as stated fails, in both directions.  On a clock five hours west of
UTC showing 2024-06-15T23:00, a commit at 2024-06-16T01:00:00Z lies on the UTC
calendar date of the current instant (2024-06-16) in a public, listed, fresh
and reachable repository, and `DidCommitToday` returns false.  At
2024-06-15T00:00:00Z, the only commit is stamped 2024-06-15T23:00:00-05:00,
whose UTC calendar date is 2024-06-16, and `DidCommitToday` returns true. -/
theorem C1_utc_date_counterexample :
    ((DidCommitToday scenarioWest initialRepos).result = some false ∧
      ∃ r ∈ listed scenarioWest, r.Private = false ∧ r.Name ∉ EXCLUDE_REPOS ∧
        timeDiffInDays (date scenarioWest.now) r.UpdatedAt ≤ 10 ∧
        ∃ cs, retrieveCommits scenarioWest r = .ok cs ∧
          ∃ c ∈ cs, c.Date.UTC.Date = scenarioWest.now.UTC.Date) ∧
    ((DidCommitToday scenarioOffsetCommit initialRepos).result = some true ∧
      ¬ ∃ r ∈ listed scenarioOffsetCommit, r.Private = false ∧ r.Name ∉ EXCLUDE_REPOS ∧
        timeDiffInDays (date scenarioOffsetCommit.now) r.UpdatedAt ≤ 10 ∧
        ∃ cs, retrieveCommits scenarioOffsetCommit r = .ok cs ∧
          ∃ c ∈ cs, c.Date.UTC.Date = scenarioOffsetCommit.now.UTC.Date) := by
  refine ⟨⟨?_, ?_⟩, ?_, ?_⟩
  · rw [DidCommitToday_result scenarioWest initialRepos (by simp [scenarioWest])
      (by intro name; simp only [scenarioWest]; split_ifs <;> simp)]
    simp [retrievePublicRepos, doRequest, scenarioWest, filterPublicRepos, repoA,
      EXCLUDE_REPOS, fresh, commitsToday, retrieveCommits, anyCommitToday,
      timeDiffInDays_date]
    decide
  · refine ⟨repoA, by simp [listed, scenarioWest, doRequest], by simp [repoA],
      by simp [repoA, EXCLUDE_REPOS], ?_,
      [⟨time.Date 2024 6 16 1 0 0 0 time.UTC⟩],
      by simp [retrieveCommits, doRequest, scenarioWest, repoA],
      ⟨time.Date 2024 6 16 1 0 0 0 time.UTC⟩, by simp, by decide⟩
    rw [timeDiffInDays_date]
    decide
  · rw [DidCommitToday_result scenarioOffsetCommit initialRepos (by simp [scenarioOffsetCommit])
      (by intro name; simp only [scenarioOffsetCommit]; split_ifs <;> simp)]
    simp [retrievePublicRepos, doRequest, scenarioOffsetCommit, filterPublicRepos, repoA,
      EXCLUDE_REPOS, fresh, commitsToday, retrieveCommits, anyCommitToday,
      timeDiffInDays_date]
    decide
  · rintro ⟨r, hr, -, -, -, cs, hcs, c, hc, hd⟩
    have hr1 : r = repoA := by simpa [listed, scenarioOffsetCommit, doRequest] using hr
    subst hr1
    have hcs1 : cs = [⟨time.Date 2024 6 15 23 0 0 0 (-18000)⟩] := by
      simpa [retrieveCommits, doRequest, scenarioOffsetCommit, repoA, eq_comm] using hcs
    subst hcs1
    have hc1 : c = ⟨time.Date 2024 6 15 23 0 0 0 (-18000)⟩ := by simpa using hc
    subst hc1
    revert hd
    decide

/-- C2, evaluated at the failing input.  When the listing request gets no
response (`client.Do` returns a nil response and an error), `doRequest` reads
`resp.StatusCode` from the nil response, so `DidCommitToday` panics: it returns
nothing and logs nothing, whatever the clock, the other replies and the
package list are. -/
theorem C2_listing_without_response_panics (now : Time)
    (commits : String → Reply (List commit)) (repos : List Repo) :
    doRequest (World.mk now .noResponse commits).listing = .panic ∧
    (DidCommitToday ⟨now, .noResponse, commits⟩ repos).result = none ∧
    (DidCommitToday ⟨now, .noResponse, commits⟩ repos).logged = [] := by
  simp [DidCommitToday, retrievePublicRepos, doRequest]

theorem DidCommitToday_fetched_fresh (w : World) (repos : List Repo) :
    ∀ r ∈ (DidCommitToday w repos).fetched, timeDiffInDays (date w.now) r.UpdatedAt ≤ 10 := by
  unfold DidCommitToday
  split
  · simp
  · exact scanRepos_fetched_fresh w _ _ _
  · exact scanRepos_fetched_fresh w _ _ _

/-- C3.  A repository with `timeDiffInDays(today, UpdatedAt) > 10` is never
passed to `retrieveCommits`; the loop of `DidCommitToday` ends the same way
(result, fetches, log lines) as on the list with all such repositories taken
out; and the whole run stays the same when the replies to the commit requests
are changed for names that belong to such repositories only.  So a stale
repository contributes nothing, whatever commits it has. -/
theorem C3_stale_repos_skipped (w : World) (repos : List Repo) :
    (∀ r, timeDiffInDays (date w.now) r.UpdatedAt > 10 →
      r ∉ (DidCommitToday w repos).fetched) ∧
    (∀ all l, scanRepos w (date w.now) all l =
      scanRepos w (date w.now) all
        (l.filter (fun r => decide (timeDiffInDays (date w.now) r.UpdatedAt ≤ 10)))) ∧
    (∀ w2 : World, w2.now = w.now → w2.listing = w.listing →
      (∀ r ∈ (retrievePublicRepos w repos).1,
        timeDiffInDays (date w.now) r.UpdatedAt ≤ 10 → w2.commits r.Name = w.commits r.Name) →
      DidCommitToday w2 repos = DidCommitToday w repos) := by
  refine ⟨?_, ?_, ?_⟩
  · intro r hr hmem
    have := DidCommitToday_fetched_fresh w repos r hmem
    omega
  · intro all l
    exact scanRepos_filter w (date w.now) all l
  · intro w2 hnow hlist hcommits
    have hr : retrievePublicRepos w2 repos = retrievePublicRepos w repos := by
      simp [retrievePublicRepos, hlist]
    have hs : scanRepos w2 (date w.now) (retrievePublicRepos w repos).1
        (retrievePublicRepos w repos).1 =
        scanRepos w (date w.now) (retrievePublicRepos w repos).1
          (retrievePublicRepos w repos).1 := by
      apply scanRepos_congr
      intro r hmem hfresh
      simp [retrieveCommits, hcommits r hmem hfresh]
    unfold DidCommitToday
    rw [hr, hnow]
    split
    · rfl
    · rename_i repos1 e
      have e1 : (retrievePublicRepos w repos).1 = repos1 := by rw [e]
      rw [e1] at hs
      simp only [hs]
    · rename_i repos1 u e
      have e1 : (retrievePublicRepos w repos).1 = repos1 := by rw [e]
      rw [e1] at hs
      simp only [hs]

/-- C3, the scenario of the specification: on 2024-06-15 the repository
updated on 2024-06-01 has a difference of 14 days; although its history has a
commit of that day it is not fetched, nothing is fetched at all, and the result
is false. -/
theorem C3_stale_repos_skipped_witness :
    timeDiffInDays (date scenarioB.now) repoB.UpdatedAt = 14 ∧
    repoB ∉ (DidCommitToday scenarioB initialRepos).fetched ∧
    (DidCommitToday scenarioB initialRepos).fetched = [] ∧
    (DidCommitToday scenarioB initialRepos).result = some false := by
  have h14 : timeDiffInDays (date scenarioB.now) repoB.UpdatedAt = 14 := by
    rw [timeDiffInDays_date]
    decide
  have hr : retrievePublicRepos scenarioB initialRepos = ([repoB], .ok ()) := by
    have hf : filterPublicRepos [repoB] = [repoB] := by
      rw [filterPublicRepos_eq_filter]
      decide
    simp [retrievePublicRepos, doRequest, scenarioB, hf]
  have hs : scanRepos scenarioB (date scenarioB.now) [repoB] [repoB] =
      scanRepos scenarioB (date scenarioB.now) [repoB] [] := by
    rw [(C3_stale_repos_skipped scenarioB initialRepos).2.1 [repoB] [repoB]]
    simp [h14]
  refine ⟨h14, (C3_stale_repos_skipped scenarioB initialRepos).1 repoB (by omega), ?_, ?_⟩
  · simp only [DidCommitToday, hr]
    rw [hs]
    simp [scanRepos]
  · simp only [DidCommitToday, hr]
    rw [hs]
    simp [scanRepos]

/-- C4.  `filterPublicRepos` returns the repositories of its input that are
not private and not named in `EXCLUDE_REPOS`, in their order; a successful
`retrievePublicRepos` stores that list; and after any sequence of calls of
`DidCommitToday` the list returned by `GetRepos` holds no private repository
and none named in `EXCLUDE_REPOS`. -/
theorem C4_filterPublicRepos_spec :
    (∀ l : List Repo, filterPublicRepos l =
      l.filter (fun r => !r.Private && decide (r.Name ∉ EXCLUDE_REPOS))) ∧
    (∀ (w : World) (repos allRepos : List Repo),
      w.listing = .response 200 (some allRepos) →
      retrievePublicRepos w repos = (filterPublicRepos allRepos, .ok ())) ∧
    (∀ ws : List World, ∀ r ∈ GetRepos (reposAfter ws),
      r.Private = false ∧ r.Name ∉ EXCLUDE_REPOS) := by
  refine ⟨filterPublicRepos_eq_filter, ?_, ?_⟩
  · intro w repos allRepos h
    simp [retrievePublicRepos, doRequest, h]
  · intro ws r hr
    exact reposAfter_allowed ws r hr

/-- C4 on a listing with a private repository and a public one named in
`EXCLUDE_REPOS`: the two other repositories are kept, in their order. -/
theorem C4_filterPublicRepos_spec_witness :
    filterPublicRepos [repoB, repoSecret, repoKickstart, repoA] = [repoB, repoA] ∧
    retrievePublicRepos
        ⟨zeroTime, .response 200 (some [repoB, repoSecret, repoKickstart, repoA]),
          fun _ => .badRequest⟩ [repoSecret] =
      (filterPublicRepos [repoB, repoSecret, repoKickstart, repoA], .ok ()) ∧
    (∀ r ∈ GetRepos (reposAfter [scenarioA, scenarioListingDown]),
      r.Private = false ∧ r.Name ∉ EXCLUDE_REPOS) := by
  refine ⟨?_, C4_filterPublicRepos_spec.2.1 _ _ _ rfl,
    C4_filterPublicRepos_spec.2.2 [scenarioA, scenarioListingDown]⟩
  rw [C4_filterPublicRepos_spec.1]
  decide

/-- C5 as stated fails: for 2024-06-15T23:00:00-05:00, an instant of the UTC
day 2024-06-16, `date` gives midnight UTC of 2024-06-15, which is not midnight
UTC of the UTC calendar day of the timestamp. -/
theorem C5_date_not_utc_day_counterexample :
    lateEvening.UTC.Date = ⟨2024, 6, 16⟩ ∧
    date lateEvening = time.Date 2024 6 15 0 0 0 0 time.UTC ∧
    date lateEvening ≠ date lateEvening.UTC := by
  refine ⟨by decide, ?_, ?_⟩
  · rw [date_eq]
    decide
  · rw [date_eq, date_eq]
    decide

/-- C5, as amended.  `date(t)` is midnight UTC of the calendar day that `t`
shows in its own zone: it has the year, month and day of `t.Date()`, no time of
day, no nanoseconds and offset zero, and it is the instant
`86400 * floor((sec + offset) / 86400)`.  For a timestamp with offset zero this
is midnight UTC of its UTC calendar day. -/
theorem C5_date_is_midnight_of_wall_day (t : Time) :
    date t = ⟨t.wallDay * 86400, 0, 0⟩ ∧
    (date t).Date = t.Date ∧
    isMidnightUTC (date t) ∧
    (t.offset = 0 → date t = date t.UTC) := by
  refine ⟨date_eq t, ?_, ?_, ?_⟩
  · rw [Date_eq_iff]
    exact wallDay_date t
  · rw [date_eq]
    refine ⟨?_, rfl, rfl⟩
    simp only
    omega
  · intro h
    rw [date_eq, date_eq]
    simp [Time.wallDay, Time.UTC, h]

/-- C5 on 2024-06-15T23:00:00Z, a timestamp with offset zero: `date` gives
midnight UTC of 2024-06-15, the UTC calendar day of the timestamp. -/
theorem C5_date_is_midnight_of_wall_day_witness :
    date (time.Date 2024 6 15 23 0 0 0 time.UTC) = time.Date 2024 6 15 0 0 0 0 time.UTC ∧
    date (time.Date 2024 6 15 23 0 0 0 time.UTC) =
      date (time.Date 2024 6 15 23 0 0 0 time.UTC).UTC := by
  have h := C5_date_is_midnight_of_wall_day (time.Date 2024 6 15 23 0 0 0 time.UTC)
  refine ⟨?_, h.2.2.2 (by decide)⟩
  rw [h.1]
  decide

/-- C6.  `date` is idempotent, and a timestamp that is a midnight in UTC is
returned unchanged. -/
theorem C6_date_idempotent (t : Time) :
    date (date t) = date t ∧ (isMidnightUTC t → date t = t) := by
  constructor
  · rw [date_eq (date t), wallDay_date, ← date_eq]
  · rintro ⟨h1, h2, h3⟩
    rw [date_eq]
    cases t with
    | mk sec nsec offset =>
      simp only [Time.wallDay] at *
      subst h2 h3
      congr 1
      omega

/-- C6 on 2024-06-15T00:00:00Z: the timestamp is a midnight in UTC and `date`
returns it unchanged. -/
theorem C6_date_idempotent_witness :
    isMidnightUTC (time.Date 2024 6 15 0 0 0 0 time.UTC) ∧
    date (time.Date 2024 6 15 0 0 0 0 time.UTC) = time.Date 2024 6 15 0 0 0 0 time.UTC :=
  have h : isMidnightUTC (time.Date 2024 6 15 0 0 0 0 time.UTC) := by
    exact ⟨by decide, by decide, by decide⟩
  ⟨h, (C6_date_idempotent (time.Date 2024 6 15 0 0 0 0 time.UTC)).2 h⟩

theorem date_of_midnight (t : Time) (h : isMidnightUTC t) : date t = t := by
  obtain ⟨h1, h2, h3⟩ := h
  rw [date_eq]
  cases t with
  | mk sec nsec offset =>
    simp only [Time.wallDay] at *
    subst h2 h3
    congr 1
    omega

/-- C7 as stated fails: with `repoA` left in the package list by an earlier
call, a listing request answered with status 500 makes `retrievePublicRepos`
return an error, and `DidCommitToday` still fetches the commits of `repoA`,
returns true, and `GetRepos` returns the old list. -/
theorem C7_stale_list_counterexample :
    (retrievePublicRepos scenarioListingDown [repoA]).2 = .err ∧
    (DidCommitToday scenarioListingDown [repoA]).fetched = [repoA] ∧
    (DidCommitToday scenarioListingDown [repoA]).result = some true ∧
    GetRepos (DidCommitToday scenarioListingDown [repoA]).repos = [repoA] := by
  have h1 : timeDiffInDays (date scenarioListingDown.now) repoA.UpdatedAt = 1 := by
    rw [timeDiffInDays_date]
    decide
  have h2 : timeDiffInDays (date scenarioListingDown.now)
      (time.Date 2024 6 15 12 0 0 0 time.UTC) = 0 := by
    rw [timeDiffInDays_date]
    decide
  have h3 : retrieveCommits scenarioListingDown repoA =
      .ok [⟨time.Date 2024 6 15 12 0 0 0 time.UTC⟩] := by
    simp [retrieveCommits, doRequest, scenarioListingDown]
  have h4 : retrievePublicRepos scenarioListingDown [repoA] = ([repoA], .err) := by
    simp [retrievePublicRepos, doRequest, scenarioListingDown]
  simp [DidCommitToday, h4, scanRepos, h1, h3, anyCommitToday, h2, GetRepos]

/-- C7, as amended.  When `retrievePublicRepos` returns an error, the package
list stays as it was and `DidCommitToday` scans that list, logging the error;
when the list was empty, as it is at program start, no commit fetch is issued,
the result is false and `GetRepos` returns an empty list. -/
theorem C7_listing_failure_keeps_list (w : World) (repos : List Repo)
    (h : (retrievePublicRepos w repos).2 = .err) :
    (DidCommitToday w repos).repos = repos ∧
    (DidCommitToday w repos).result = (scanRepos w (date w.now) repos repos).result ∧
    (DidCommitToday w repos).fetched = (scanRepos w (date w.now) repos repos).fetched ∧
    (DidCommitToday w repos).logged =
      LogLine.reposError :: (scanRepos w (date w.now) repos repos).logged ∧
    (repos = [] →
      (DidCommitToday w repos).fetched = [] ∧
      (DidCommitToday w repos).result = some false ∧
      GetRepos (DidCommitToday w repos).repos = []) := by
  have h1 : retrievePublicRepos w repos = (repos, .err) := by
    unfold retrievePublicRepos at h ⊢
    split <;> simp_all
  refine ⟨?_, ?_, ?_, ?_, ?_⟩
  · simp [DidCommitToday, h1, scanRepos_repos]
  · simp [DidCommitToday, h1]
  · simp [DidCommitToday, h1]
  · simp [DidCommitToday, h1]
  · intro he
    subst he
    simp [DidCommitToday, h1, scanRepos, GetRepos]

/-- C7 at program start: the listing request gets status 500 and the package
list is the initial empty one; nothing is fetched, the result is false and
`GetRepos` returns an empty list. -/
theorem C7_listing_failure_keeps_list_witness :
    (retrievePublicRepos scenarioListingDown initialRepos).2 = .err ∧
    (DidCommitToday scenarioListingDown initialRepos).fetched = [] ∧
    (DidCommitToday scenarioListingDown initialRepos).result = some false ∧
    GetRepos (DidCommitToday scenarioListingDown initialRepos).repos = [] :=
  have h : (retrievePublicRepos scenarioListingDown initialRepos).2 = .err := by
    simp [retrievePublicRepos, doRequest, scenarioListingDown]
  ⟨h, (C7_listing_failure_keeps_list scenarioListingDown initialRepos h).2.2.2.2 rfl⟩

theorem DidCommitToday_fetched (w : World) (repos : List Repo)
    (hl : w.listing ≠ .noResponse) (hc : ∀ name, w.commits name ≠ .noResponse) :
    (DidCommitToday w repos).fetched =
      takeThrough (commitsToday w (date w.now))
        ((retrievePublicRepos w repos).1.filter (fresh (date w.now))) := by
  have hp : ∀ l : List Repo, ∀ r ∈ l, retrieveCommits w r ≠ .panic :=
    fun l r _ => retrieveCommits_ne_panic w r (hc r.Name)
  unfold DidCommitToday
  split
  · rename_i repos1 e
    exfalso
    unfold retrievePublicRepos doRequest at e
    cases hw : w.listing with
    | badRequest => simp [hw] at e
    | noResponse => exact hl hw
    | response status decoded =>
      rw [hw] at e
      by_cases hs : status = 200
      · cases decoded <;> simp [hs] at e
      · simp [hs] at e
  · rename_i repos1 e
    simp only [e]
    exact scanRepos_fetched w _ _ _ (hp _)
  · rename_i repos1 u e
    simp only [e]
    exact scanRepos_fetched w _ _ _ (hp _)

/-- C8, evaluated at the failing input.  The listing holds `repoA` and
`repoB`, both updated today; the commit request for `repoA` gets no response
and the history of `repoB` has a commit of today.  `DidCommitToday` panics
inside the fetch for `repoA`: the fetches stop there, `repoB`, the first
repository with a commit of today, is never fetched, and no result is
returned. -/
theorem C8_scan_stops_at_unreachable_repo :
    (scanRepos scenarioCommitsUnreachable (date scenarioCommitsUnreachable.now)
        (listed scenarioCommitsUnreachable) (listed scenarioCommitsUnreachable)).fetched =
      [{ repoA with UpdatedAt := time.Date 2024 6 15 0 0 0 0 time.UTC }] ∧
    (DidCommitToday scenarioCommitsUnreachable initialRepos).fetched =
      [{ repoA with UpdatedAt := time.Date 2024 6 15 0 0 0 0 time.UTC }] ∧
    (DidCommitToday scenarioCommitsUnreachable initialRepos).result = none ∧
    takeThrough (commitsToday scenarioCommitsUnreachable (date scenarioCommitsUnreachable.now))
        ((listed scenarioCommitsUnreachable).filter
          (fresh (date scenarioCommitsUnreachable.now))) =
      [{ repoA with UpdatedAt := time.Date 2024 6 15 0 0 0 0 time.UTC },
       { repoB with UpdatedAt := time.Date 2024 6 15 0 0 0 0 time.UTC }] := by
  have h0 : ∀ t, timeDiffInDays (date scenarioCommitsUnreachable.now) t =
      saturatedDays (scenarioCommitsUnreachable.now.wallDay - t.wallDay) :=
    fun t => timeDiffInDays_date _ t
  have hA : retrieveCommits scenarioCommitsUnreachable
      { repoA with UpdatedAt := time.Date 2024 6 15 0 0 0 0 time.UTC } = .panic := by
    simp [retrieveCommits, doRequest, scenarioCommitsUnreachable, repoA]
  have hB : retrieveCommits scenarioCommitsUnreachable
      { repoB with UpdatedAt := time.Date 2024 6 15 0 0 0 0 time.UTC } =
      .ok [⟨time.Date 2024 6 15 12 0 0 0 time.UTC⟩] := by
    simp [retrieveCommits, doRequest, scenarioCommitsUnreachable, repoB]
  have hl : listed scenarioCommitsUnreachable =
      [{ repoA with UpdatedAt := time.Date 2024 6 15 0 0 0 0 time.UTC },
       { repoB with UpdatedAt := time.Date 2024 6 15 0 0 0 0 time.UTC }] := by
    simp [listed, doRequest, scenarioCommitsUnreachable]
  have hf : filterPublicRepos (listed scenarioCommitsUnreachable) =
      listed scenarioCommitsUnreachable := by
    rw [hl, filterPublicRepos_eq_filter]
    decide
  have hd : saturatedDays (scenarioCommitsUnreachable.now.wallDay -
      (time.Date 2024 6 15 0 0 0 0 time.UTC).wallDay) = 0 := by decide
  have hd2 : saturatedDays (scenarioCommitsUnreachable.now.wallDay -
      (time.Date 2024 6 15 12 0 0 0 time.UTC).wallDay) = 0 := by decide
  have hr : retrievePublicRepos scenarioCommitsUnreachable initialRepos =
      (listed scenarioCommitsUnreachable, .ok ()) := by
    rw [← hf]
    simp [retrievePublicRepos, listed, doRequest, scenarioCommitsUnreachable]
  have hs : scanRepos scenarioCommitsUnreachable (date scenarioCommitsUnreachable.now)
      (listed scenarioCommitsUnreachable) (listed scenarioCommitsUnreachable) =
      ⟨none, [{ repoA with UpdatedAt := time.Date 2024 6 15 0 0 0 0 time.UTC }], [],
        listed scenarioCommitsUnreachable⟩ := by
    conv_lhs => rw [hl]
    simp [scanRepos, h0, hd, hA, hl]
  refine ⟨by rw [hs], ?_, ?_, ?_⟩
  · simp [DidCommitToday, hr, hs]
  · simp [DidCommitToday, hr, hs]
  · rw [hl]
    simp [List.filter, fresh, h0, hd, takeThrough, commitsToday, hA, hB, anyCommitToday, hd2]

theorem daysSinceUpdate_midnight (today u : Time) (h : isMidnightUTC today) :
    daysSinceUpdate today u = today.wallDay - u.wallDay := by
  obtain ⟨h1, h2, h3⟩ := h
  have hH : Hour = (3600000000000 : ℤ) := rfl
  unfold daysSinceUpdate
  rw [date_eq, hH, h2]
  simp only [Time.wallDay, h3]
  omega

/-- C9 as stated fails for a distant date: from the zero time
0001-01-01T00:00:00Z to 2024-06-15 there are 739051 whole days, and
`timeDiffInDays` returns 106751, because `Sub` saturates at the largest
`Duration`. -/
theorem C9_zero_time_counterexample :
    isMidnightUTC (time.Date 2024 6 15 0 0 0 0 time.UTC) ∧
    daysSinceUpdate (time.Date 2024 6 15 0 0 0 0 time.UTC) zeroTime = 739051 ∧
    timeDiffInDays (time.Date 2024 6 15 0 0 0 0 time.UTC) zeroTime = 106751 := by
  have hm : isMidnightUTC (time.Date 2024 6 15 0 0 0 0 time.UTC) := by
    exact ⟨by decide, by decide, by decide⟩
  refine ⟨hm, ?_, ?_⟩
  · rw [daysSinceUpdate_midnight _ _ hm]
    decide
  · rw [← date_of_midnight _ hm, timeDiffInDays_date]
    decide

/-- C9, as amended.  For a midnight-UTC timestamp `today` and a timestamp
`u`, both within `9 * 10^18` seconds of the Unix epoch (instant and wall
clock), a range in which Go's second counter does not wrap around and in which
`today` and `date(u)` are representable: `timeDiffInDays(today, u)` is the
signed number of whole days `floor((today - date(u)) / 24h)` as long as that
number lies between -106751 and 106751, the whole days a `Duration` can hold
(also when `u` lies after `today`); beyond that it is 106751 for an earlier `u`
and -106751 for a later one. -/
theorem C9_timeDiffInDays_saturates (today u : Time) (h : isMidnightUTC today)
    (ht : inRange today) (hu : inRange u) :
    (representable today.sec ∧ representable (date u).sec) ∧
    timeDiffInDays today u = saturatedDays (daysSinceUpdate today u) ∧
    (-106751 ≤ daysSinceUpdate today u ∧ daysSinceUpdate today u ≤ 106751 →
      timeDiffInDays today u = daysSinceUpdate today u) ∧
    (106751 < daysSinceUpdate today u → timeDiffInDays today u = 106751) ∧
    (daysSinceUpdate today u < -106751 → timeDiffInDays today u = -106751) := by
  have key : timeDiffInDays today u = saturatedDays (daysSinceUpdate today u) := by
    rw [daysSinceUpdate_midnight today u h]
    conv_lhs => rw [← date_of_midnight today h]
    exact timeDiffInDays_date today u
  have hrep : representable today.sec ∧ representable (date u).sec := by
    obtain ⟨t1, t2, -, -⟩ := ht
    obtain ⟨-, -, u3, u4⟩ := hu
    rw [date_eq]
    simp only [representable, Time.wallDay]
    refine ⟨⟨?_, ?_⟩, ?_, ?_⟩ <;> omega
  refine ⟨hrep, key, ?_, ?_, ?_⟩
  · intro hr
    rw [key]
    unfold saturatedDays
    split_ifs <;> omega
  · intro hr
    rw [key]
    unfold saturatedDays
    split_ifs <;> omega
  · intro hr
    rw [key]
    unfold saturatedDays
    rw [if_pos hr]

/-- C9 on the scenarios of the specification, on a later date and on the zero
time, all inside the range: from 2024-06-01 to 2024-06-15 the difference is 14
days, from 2024-06-20T08:30:00+02:00 back to 2024-06-15 it is -5 days, and
from the zero time, 739051 days back, the result is 106751. -/
theorem C9_timeDiffInDays_saturates_witness :
    isMidnightUTC (time.Date 2024 6 15 0 0 0 0 time.UTC) ∧
    inRange (time.Date 2024 6 15 0 0 0 0 time.UTC) ∧
    inRange (time.Date 2024 6 1 0 0 0 0 time.UTC) ∧
    inRange (time.Date 2024 6 20 8 30 0 0 7200) ∧
    inRange zeroTime ∧
    timeDiffInDays (time.Date 2024 6 15 0 0 0 0 time.UTC)
      (time.Date 2024 6 1 0 0 0 0 time.UTC) = 14 ∧
    timeDiffInDays (time.Date 2024 6 15 0 0 0 0 time.UTC)
      (time.Date 2024 6 20 8 30 0 0 7200) = -5 ∧
    timeDiffInDays (time.Date 2024 6 15 0 0 0 0 time.UTC) zeroTime = 106751 := by
  have hm : isMidnightUTC (time.Date 2024 6 15 0 0 0 0 time.UTC) := by
    exact ⟨by decide, by decide, by decide⟩
  have ht : inRange (time.Date 2024 6 15 0 0 0 0 time.UTC) := by
    exact ⟨by decide, by decide, by decide, by decide⟩
  have h1 : inRange (time.Date 2024 6 1 0 0 0 0 time.UTC) := by
    exact ⟨by decide, by decide, by decide, by decide⟩
  have h2 : inRange (time.Date 2024 6 20 8 30 0 0 7200) := by
    exact ⟨by decide, by decide, by decide, by decide⟩
  have h3 : inRange zeroTime := by
    exact ⟨by decide, by decide, by decide, by decide⟩
  refine ⟨hm, ht, h1, h2, h3, ?_, ?_, ?_⟩
  · rw [(C9_timeDiffInDays_saturates _ _ hm ht h1).2.1, daysSinceUpdate_midnight _ _ hm]
    decide
  · rw [(C9_timeDiffInDays_saturates _ _ hm ht h2).2.1, daysSinceUpdate_midnight _ _ hm]
    decide
  · apply (C9_timeDiffInDays_saturates _ _ hm ht h3).2.2.2.1
    rw [daysSinceUpdate_midnight _ _ hm]
    decide

end githubapi

/-! ## The repository prompt -/

namespace Main
open githubapi

theorem Atoi_range (s : String) (k : ℤ) (h : strconv.Atoi s = some k) :
    -9223372036854775808 ≤ k ∧ k ≤ 9223372036854775807 := by
  unfold strconv.Atoi at h
  simp only at h
  split at h
  · exact absurd h (by simp)
  · split at h
    · exact absurd h (by simp)
    · split_ifs at h
      all_goals (cases h; assumption)

theorem wrapInt64_pred (k : ℤ) (h : -9223372036854775807 ≤ k ∧ k ≤ 9223372036854775807) :
    wrapInt64 (k - 1) = k - 1 := by
  unfold wrapInt64
  omega

theorem wrapInt64_pred_min : wrapInt64 (-9223372036854775808 - 1) = 9223372036854775807 := by
  decide

theorem getSelectedRepo_reject (repos : List Repo) (hlen : repos.length < 2 ^ 63)
    (line : String) (rest : List String) (h : validChoice repos.length line = false) :
    getSelectedRepo repos (line :: rest) =
      ((getSelectedRepo repos rest).1,
        rejection repos.length line ++ (getSelectedRepo repos rest).2) := by
  unfold validChoice at h
  rw [getSelectedRepo]
  unfold rejection
  cases ha : strconv.Atoi line with
  | none => simp
  | some k =>
    rw [ha] at h
    simp only [decide_eq_false_iff_not, not_and, not_le] at h
    have hk := Atoi_range line k ha
    have hcond : wrapInt64 (k - 1) < 0 ∨ wrapInt64 (k - 1) ≥ (repos.length : ℤ) := by
      by_cases hmin : k = -9223372036854775808
      · right
        rw [hmin, wrapInt64_pred_min]
        have : (repos.length : ℤ) < 2 ^ 63 := by exact_mod_cast hlen
        omega
      · rw [wrapInt64_pred k (by omega)]
        by_cases h1 : 1 ≤ k
        · right
          have := h h1
          omega
        · left
          omega
    simp [hcond]

theorem getSelectedRepo_accept (repos : List Repo) (line : String) (rest : List String)
    (k : ℤ) (ha : strconv.Atoi line = some k) (h1 : 1 ≤ k) (h2 : k ≤ (repos.length : ℤ)) :
    ∃ r, repos[(k - 1).toNat]? = some r ∧
      getSelectedRepo repos (line :: rest) = (.returned r, [.askRepoId]) := by
  have hk := Atoi_range line k ha
  have hw : wrapInt64 (k - 1) = k - 1 := wrapInt64_pred k (by omega)
  have hlt : (k - 1).toNat < repos.length := by omega
  refine ⟨repos[(k - 1).toNat], List.getElem?_eq_getElem hlt, ?_⟩
  rw [getSelectedRepo]
  simp only [ha, hw]
  have hcond : ¬ (k - 1 < 0 ∨ k - 1 ≥ (repos.length : ℤ)) := by omega
  rw [if_neg hcond, List.getElem?_eq_getElem hlt]

theorem getSelectedRepo_in_range (repos : List Repo) (lines : List String) :
    (getSelectedRepo repos lines).1 ≠ .indexOutOfRange := by
  induction lines with
  | nil => simp [getSelectedRepo]
  | cons line rest ih =>
    rw [getSelectedRepo]
    split
    · exact ih
    · split_ifs with hc
      · exact ih
      · rename_i repoId _
        have hlt : (wrapInt64 (repoId - 1)).toNat < repos.length := by omega
        simp [List.getElem?_eq_getElem hlt]

/-- C10.  For a repository list (of a length that fits Go's `int`) and input
lines of which the first that parses as an integer `k` with
`1 <= k <= len(repos)` comes after the lines `before`, `getSelectedRepo`
returns `repos[k-1]`; each earlier line is answered by the message that
rejects it and the prompt is written again; and on no input at all is the
list indexed out of range. -/
theorem C10_getSelectedRepo_first_valid (repos : List Repo) (hlen : repos.length < 2 ^ 63)
    (before : List String) (line : String) (after : List String) (k : ℤ)
    (hbefore : ∀ l ∈ before, validChoice repos.length l = false)
    (hline : strconv.Atoi line = some k) (h1 : 1 ≤ k) (h2 : k ≤ (repos.length : ℤ)) :
    (∃ r, repos[(k - 1).toNat]? = some r ∧
      getSelectedRepo repos (before ++ line :: after) =
        (.returned r, before.flatMap (rejection repos.length) ++ [.askRepoId])) ∧
    (∀ lines, (getSelectedRepo repos lines).1 ≠ .indexOutOfRange) := by
  refine ⟨?_, getSelectedRepo_in_range repos⟩
  obtain ⟨r, hr, hsel⟩ := getSelectedRepo_accept repos line after k hline h1 h2
  refine ⟨r, hr, ?_⟩
  induction before with
  | nil => simpa using hsel
  | cons b rest ih =>
    have hb := hbefore b (List.mem_cons_self _ _)
    have ih1 := ih (fun l hl => hbefore l (List.mem_cons_of_mem _ hl))
    rw [List.cons_append, getSelectedRepo_reject repos hlen b _ hb, ih1]
    simp [List.flatMap_cons]

/-- C10 on three repositories and the input lines `abc`, `0`, `7`, an empty
line, `2`, `1`: the first four lines are rejected, each after a prompt, and
the second repository is returned at the line `2`. -/
theorem C10_getSelectedRepo_first_valid_witness :
    getSelectedRepo [repoA, repoB, repoKickstart] ["abc", "0", "7", "", "2", "1"] =
      (.returned repoB,
        [.askRepoId, .enterNumber, .askRepoId, .enterBetween 3, .askRepoId, .enterBetween 3,
          .askRepoId, .enterNumber, .askRepoId]) := by
  obtain ⟨r, hr, h⟩ := (C10_getSelectedRepo_first_valid [repoA, repoB, repoKickstart]
    (by decide) ["abc", "0", "7", ""] "2" ["1"] 2 (by decide) (by decide) (by decide)
    (by decide)).1
  have hr1 : r = repoB := by
    have h2 : [repoA, repoB, repoKickstart][((2 : ℤ) - 1).toNat]? = some repoB := by decide
    rw [h2] at hr
    exact (Option.some.inj hr).symm
  subst hr1
  have hm : (["abc", "0", "7", ""] : List String).flatMap
      (rejection [repoA, repoB, repoKickstart].length) ++ [Message.askRepoId] =
      [.askRepoId, .enterNumber, .askRepoId, .enterBetween 3, .askRepoId, .enterBetween 3,
        .askRepoId, .enterNumber, .askRepoId] := by decide
  rw [hm] at h
  exact h

end Main
